import Mathlib

/-!
# Verification of the `endianrw` byte-order transform library

Shallow embedding of `src/lib.rs`.  The library provides, for each of the
ten primitive types `u8 u16 u32 u64 i8 i16 i32 i64 f32 f64` and each
endianness tag (`BigEndian`, `LittleEndian`), a `ByteTransform` with
`from_bytes`, `to_bytes` and `buffer`, plus generic stream operations
`read_as` / `write_as` over `std::io::Read` / `std::io::Write`.

Modelling choices:
* a byte is a `Nat` (well-formed buffers carry the bound `< 256`);
* a Rust `[u8; n]` buffer is a `List Nat` (theorems carry `length = n`);
* unsigned values are `Nat` (bounded by `2^(8*n)`), signed values are
  `Int` in two's-complement range, and `f32`/`f64` values are represented
  by their IEEE-754 bit patterns as `Nat` (the Rust code never performs
  float arithmetic: it only bit-transmutes between `fN` and `uN`, which is
  the identity on bit patterns);
* `transmute` between `[u8; n]` and an integer depends on the byte order
  of the host, so the embedding takes the host byte order as an explicit
  parameter `h` (in Rust it is fixed by `cfg(target_endian)`); `to_le` /
  `to_be` are the identity on a matching host and a byte swap otherwise,
  exactly as in Rust.
-/

namespace Endianrw

/-- The two endianness tags of the library, `pub enum BigEndian {}` and
`pub enum LittleEndian {}`, modelled as one inductive of tags. -/
inductive Endianness where
  | BigEndian : Endianness
  | LittleEndian : Endianness
deriving DecidableEq, Repr

/-- `pub type NetworkByteOrder = BigEndian;` -/
def NetworkByteOrder : Endianness := .BigEndian

/-- Interpret a list of bytes least-significant-byte-first (the in-memory
value of a `[u8; n]` on a little-endian machine). -/
def fromBytesLE : List Nat → Nat
  | [] => 0
  | b :: rest => b + 256 * fromBytesLE rest

/-- Lay out the low `w` bytes of a value least-significant-byte-first
(the in-memory layout of an integer on a little-endian machine). -/
def toBytesLE : Nat → Nat → List Nat
  | 0, _ => []
  | w + 1, v => v % 256 :: toBytesLE w (v / 256)

/-- A well-formed `[u8; w]` buffer: exactly `w` entries, each a byte. -/
def WFBuf (w : Nat) (buf : List Nat) : Prop :=
  buf.length = w ∧ ∀ b ∈ buf, b < 256

instance (w : Nat) (buf : List Nat) : Decidable (WFBuf w buf) := by
  unfold WFBuf; infer_instance

/-- `unsafe { transmute::<[u8; w], uN>(buf) }` on a host with byte order
`h`: the native interpretation of the raw bytes. -/
def transmuteOfBytes (h : Endianness) (buf : List Nat) : Nat :=
  match h with
  | .LittleEndian => fromBytesLE buf
  | .BigEndian => fromBytesLE buf.reverse

/-- `unsafe { transmute::<uN, [u8; w]>(v) }` on a host with byte order
`h`: the native byte layout of the value. -/
def transmuteToBytes (h : Endianness) (w : Nat) (v : Nat) : List Nat :=
  match h with
  | .LittleEndian => toBytesLE w v
  | .BigEndian => (toBytesLE w v).reverse

/-- `uN::swap_bytes` restricted to `w`-byte values. -/
def byteswap (w v : Nat) : Nat :=
  fromBytesLE (toBytesLE w v).reverse

/-- Rust `uN::to_le`: identity on a little-endian host, byte swap on a
big-endian host. -/
def to_le (h : Endianness) (w v : Nat) : Nat :=
  match h with
  | .LittleEndian => v
  | .BigEndian => byteswap w v

/-- Rust `uN::to_be`: identity on a big-endian host, byte swap on a
little-endian host. -/
def to_be (h : Endianness) (w v : Nat) : Nat :=
  match h with
  | .BigEndian => v
  | .LittleEndian => byteswap w v

/-- The conversion function each tag's `ByteTransform` impls use, fixed by
`impl_bytetransform!(LittleEndian, to_le);` and
`impl_bytetransform!(BigEndian, to_be);` (lines 125-126). -/
def convertfn (e : Endianness) : Endianness → Nat → Nat → Nat :=
  match e with
  | .LittleEndian => to_le
  | .BigEndian => to_be

/-- Integer arm of `impl_bytetransform!`, `from_bytes`:
`unsafe { transmute::<_, T>(buf) }.convertfn()` (line 86), at the level of
unsigned bit patterns. -/
def from_bytes (e h : Endianness) (w : Nat) (buf : List Nat) : Nat :=
  convertfn e h w (transmuteOfBytes h buf)

/-- Integer arm of `impl_bytetransform!`, `to_bytes`:
`unsafe { transmute(val.convertfn()) }` (line 91), at the level of
unsigned bit patterns. -/
def to_bytes (e h : Endianness) (w : Nat) (v : Nat) : List Nat :=
  transmuteToBytes h w (convertfn e h w v)

/-! ## Basic arithmetic lemmas about the byte codec -/

theorem length_toBytesLE (w v : Nat) : (toBytesLE w v).length = w := by
  induction w generalizing v with
  | zero => rfl
  | succ k ih => simp [toBytesLE, ih]

theorem mem_toBytesLE_lt {w v b : Nat} (hb : b ∈ toBytesLE w v) : b < 256 := by
  induction w generalizing v with
  | zero => simp [toBytesLE] at hb
  | succ k ih =>
    simp only [toBytesLE, List.mem_cons] at hb
    rcases hb with h | h
    · subst h; exact Nat.mod_lt _ (by omega)
    · exact ih h

theorem WFBuf_toBytesLE (w v : Nat) : WFBuf w (toBytesLE w v) :=
  ⟨length_toBytesLE w v, fun _ hb => mem_toBytesLE_lt hb⟩

theorem fromBytesLE_lt {w : Nat} {buf : List Nat} (h : WFBuf w buf) :
    fromBytesLE buf < 256 ^ w := by
  obtain ⟨hlen, hmem⟩ := h
  induction buf generalizing w with
  | nil => simp [fromBytesLE]
  | cons b rest ih =>
    cases w with
    | zero => simp at hlen
    | succ k =>
      simp only [List.length_cons, Nat.succ.injEq] at hlen
      have hb : b < 256 := hmem b (List.mem_cons_self ..)
      have hrest : fromBytesLE rest < 256 ^ k :=
        ih hlen (fun x hx => hmem x (List.mem_cons_of_mem _ hx))
      simp only [fromBytesLE, pow_succ]
      calc b + 256 * fromBytesLE rest ≤ 255 + 256 * fromBytesLE rest := by omega
        _ < 256 * 256 ^ k := by omega
        _ = 256 ^ k * 256 := by ring

theorem fromBytesLE_toBytesLE {w v : Nat} (hv : v < 256 ^ w) :
    fromBytesLE (toBytesLE w v) = v := by
  induction w generalizing v with
  | zero => simp only [toBytesLE, fromBytesLE]; simp at hv; omega
  | succ k ih =>
    have hdiv : v / 256 < 256 ^ k := by
      rw [Nat.div_lt_iff_lt_mul (by omega)]
      rw [pow_succ] at hv; omega
    simp only [toBytesLE, fromBytesLE, ih hdiv]
    omega

theorem toBytesLE_fromBytesLE {w : Nat} {buf : List Nat} (h : WFBuf w buf) :
    toBytesLE w (fromBytesLE buf) = buf := by
  obtain ⟨hlen, hmem⟩ := h
  induction buf generalizing w with
  | nil => subst hlen; rfl
  | cons b rest ih =>
    cases w with
    | zero => simp at hlen
    | succ k =>
      simp only [List.length_cons, Nat.succ.injEq] at hlen
      have hb : b < 256 := hmem b (List.mem_cons_self ..)
      have hmod : (b + 256 * fromBytesLE rest) % 256 = b := by
        omega
      have hdiv : (b + 256 * fromBytesLE rest) / 256 = fromBytesLE rest := by
        omega
      simp only [toBytesLE, fromBytesLE, hmod, hdiv]
      rw [ih hlen (fun x hx => hmem x (List.mem_cons_of_mem _ hx))]

theorem WFBuf_reverse {w : Nat} {buf : List Nat} (h : WFBuf w buf) :
    WFBuf w buf.reverse := by
  obtain ⟨hlen, hmem⟩ := h
  exact ⟨by simpa using hlen, fun b hb => hmem b (List.mem_reverse.mp hb)⟩

theorem byteswap_lt {w v : Nat} (_hv : v < 256 ^ w) : byteswap w v < 256 ^ w :=
  fromBytesLE_lt (WFBuf_reverse (WFBuf_toBytesLE w v))

/-! ## Canonical, host-independent form of the transforms

`from_bytes`/`to_bytes` are written with `transmute` plus `to_le`/`to_be`,
so their raw definitions branch on the host byte order `h`.  The following
lemmas show the observable behaviour does not depend on `h`: the
`LittleEndian` impl always reads/writes least-significant-byte-first, the
`BigEndian` impl most-significant-byte-first. -/

theorem from_bytes_little {h : Endianness} {w : Nat} {buf : List Nat}
    (hbuf : WFBuf w buf) :
    from_bytes .LittleEndian h w buf = fromBytesLE buf := by
  cases h with
  | LittleEndian => rfl
  | BigEndian =>
    show byteswap w (fromBytesLE buf.reverse) = fromBytesLE buf
    unfold byteswap
    rw [toBytesLE_fromBytesLE (WFBuf_reverse hbuf), List.reverse_reverse]

theorem from_bytes_big {h : Endianness} {w : Nat} {buf : List Nat}
    (hbuf : WFBuf w buf) :
    from_bytes .BigEndian h w buf = fromBytesLE buf.reverse := by
  cases h with
  | BigEndian => rfl
  | LittleEndian =>
    show byteswap w (fromBytesLE buf) = fromBytesLE buf.reverse
    unfold byteswap
    rw [toBytesLE_fromBytesLE hbuf]

theorem to_bytes_little (h : Endianness) (w v : Nat) :
    to_bytes .LittleEndian h w v = toBytesLE w v := by
  cases h with
  | LittleEndian => rfl
  | BigEndian =>
    show (toBytesLE w (byteswap w v)).reverse = toBytesLE w v
    unfold byteswap
    rw [toBytesLE_fromBytesLE (WFBuf_reverse (WFBuf_toBytesLE w v)),
      List.reverse_reverse]

theorem to_bytes_big (h : Endianness) (w v : Nat) :
    to_bytes .BigEndian h w v = (toBytesLE w v).reverse := by
  cases h with
  | BigEndian => rfl
  | LittleEndian =>
    show toBytesLE w (byteswap w v) = (toBytesLE w v).reverse
    unfold byteswap
    rw [toBytesLE_fromBytesLE (WFBuf_reverse (WFBuf_toBytesLE w v))]

/-- Unsigned round trip at bit level: decoding an encoded value gives the
value back, for any endianness tag and any host byte order. -/
theorem from_bytes_to_bytes {e h : Endianness} {w v : Nat}
    (hv : v < 256 ^ w) :
    from_bytes e h w (to_bytes e h w v) = v := by
  cases e with
  | LittleEndian =>
    rw [to_bytes_little, from_bytes_little (WFBuf_toBytesLE w v)]
    exact fromBytesLE_toBytesLE hv
  | BigEndian =>
    rw [to_bytes_big,
      from_bytes_big (WFBuf_reverse (WFBuf_toBytesLE w v)),
      List.reverse_reverse]
    exact fromBytesLE_toBytesLE hv

/-- Unsigned inverse round trip at bit level: encoding a decoded
exact-width buffer gives the buffer back. -/
theorem to_bytes_from_bytes {e h : Endianness} {w : Nat} {buf : List Nat}
    (hbuf : WFBuf w buf) :
    to_bytes e h w (from_bytes e h w buf) = buf := by
  cases e with
  | LittleEndian =>
    rw [from_bytes_little hbuf, to_bytes_little,
      toBytesLE_fromBytesLE hbuf]
  | BigEndian =>
    rw [from_bytes_big hbuf, to_bytes_big,
      toBytesLE_fromBytesLE (WFBuf_reverse hbuf), List.reverse_reverse]

theorem from_bytes_lt {e h : Endianness} {w : Nat} {buf : List Nat}
    (hbuf : WFBuf w buf) : from_bytes e h w buf < 256 ^ w := by
  cases e with
  | LittleEndian => rw [from_bytes_little hbuf]; exact fromBytesLE_lt hbuf
  | BigEndian =>
    rw [from_bytes_big hbuf]; exact fromBytesLE_lt (WFBuf_reverse hbuf)

theorem length_to_bytes (e h : Endianness) (w v : Nat) :
    (to_bytes e h w v).length = w := by
  cases e with
  | LittleEndian => rw [to_bytes_little]; exact length_toBytesLE w v
  | BigEndian => rw [to_bytes_big]; simpa using length_toBytesLE w v

theorem WFBuf_to_bytes (e h : Endianness) (w v : Nat) :
    WFBuf w (to_bytes e h w v) := by
  cases e with
  | LittleEndian => rw [to_bytes_little]; exact WFBuf_toBytesLE w v
  | BigEndian => rw [to_bytes_big]; exact WFBuf_reverse (WFBuf_toBytesLE w v)

/-! ## Signed integers

The integer arm of `impl_bytetransform!` is also instantiated at
`i8 i16 i32 i64`.  There `transmute::<[u8; w], iN>` is the two's-complement
native interpretation of the bytes and `iN::to_le`/`to_be` swap the bytes
of the two's-complement bit pattern, so the signed transforms are the
bit-level ones wrapped in the two's-complement (de)coding. -/

/-- Two's-complement interpretation of an `nbits`-wide bit pattern. -/
def toSigned (nbits u : Nat) : Int :=
  if u < 2 ^ (nbits - 1) then (u : Int) else (u : Int) - 2 ^ nbits

/-- The `nbits`-wide two's-complement bit pattern of an integer. -/
def fromSigned (nbits : Nat) (v : Int) : Nat :=
  (v % (2 ^ nbits : Int)).toNat

/-- Rust `iN::to_le` / `iN::to_be` (chosen by the tag `e`) on a host with
byte order `h`: a byte swap of the two's-complement bit pattern, or the
identity. -/
def int_convertfn (e h : Endianness) (w : Nat) (v : Int) : Int :=
  toSigned (8 * w) (convertfn e h w (fromSigned (8 * w) v))

/-- Signed-integer instance of the `from_bytes` macro arm:
`unsafe { transmute::<_, iN>(buf) }.convertfn()`. -/
def sfrom_bytes (e h : Endianness) (w : Nat) (buf : List Nat) : Int :=
  int_convertfn e h w (toSigned (8 * w) (transmuteOfBytes h buf))

/-- Signed-integer instance of the `to_bytes` macro arm:
`unsafe { transmute(val.convertfn()) }`. -/
def sto_bytes (e h : Endianness) (w : Nat) (v : Int) : List Nat :=
  transmuteToBytes h w (fromSigned (8 * w) (int_convertfn e h w v))

theorem pow256_eq (w : Nat) : 256 ^ w = 2 ^ (8 * w) := by
  rw [show (256 : Nat) = 2 ^ 8 by norm_num, ← pow_mul]

theorem fromSigned_lt (nbits : Nat) (v : Int) :
    fromSigned nbits v < 2 ^ nbits := by
  have hpos : (0 : Int) < 2 ^ nbits := by positivity
  have h1 := Int.emod_lt_of_pos v hpos
  unfold fromSigned
  have h2 : (v % 2 ^ nbits).toNat < ((2 : Int) ^ nbits).toNat :=
    (Int.toNat_lt_toNat hpos).mpr h1
  calc (v % 2 ^ nbits).toNat < ((2 : Int) ^ nbits).toNat := h2
    _ = 2 ^ nbits := by rw [show ((2 : Int) ^ nbits) = ((2 ^ nbits : Nat) : Int) by push_cast; ring, Int.toNat_natCast]

theorem fromSigned_toSigned {nbits u : Nat} (hu : u < 2 ^ nbits) :
    fromSigned nbits (toSigned nbits u) = u := by
  have hu' : (u : Int) < 2 ^ nbits := by exact_mod_cast hu
  have hpos : (0 : Int) < 2 ^ nbits := by positivity
  unfold toSigned fromSigned
  split
  · rw [Int.emod_eq_of_lt (by positivity) hu']
    exact Int.toNat_natCast u
  · have hsub : ((u : Int) - 2 ^ nbits) % 2 ^ nbits = (u : Int) % 2 ^ nbits := by
      conv_lhs => rw [show (u : Int) - 2 ^ nbits = u + 2 ^ nbits * (-1) by ring]
      rw [Int.add_mul_emod_self_left]
    rw [hsub, Int.emod_eq_of_lt (by positivity) hu']
    exact Int.toNat_natCast u

theorem toSigned_fromSigned {nbits : Nat} {v : Int} (hn : 0 < nbits)
    (h1 : -(2 ^ (nbits - 1)) ≤ v) (h2 : v < 2 ^ (nbits - 1)) :
    toSigned nbits (fromSigned nbits v) = v := by
  obtain ⟨m, rfl⟩ : ∃ m, nbits = m + 1 := ⟨nbits - 1, by omega⟩
  simp only [Nat.add_sub_cancel] at h1 h2 ⊢
  have hpow : (2 : Int) ^ (m + 1) = 2 ^ m * 2 := by ring
  have hpos : (0 : Int) < 2 ^ (m + 1) := by positivity
  have hmpos : (0 : Int) < 2 ^ m := by positivity
  unfold toSigned fromSigned
  rcases le_or_lt 0 v with hv | hv
  · have hlt : v < 2 ^ (m + 1) := by omega
    rw [Int.emod_eq_of_lt hv hlt]
    have htn : ((v.toNat : Int)) = v := Int.toNat_of_nonneg hv
    have hsm : v.toNat < 2 ^ m := by
      have : ((2 : Int) ^ m) = ((2 ^ m : Nat) : Int) := by push_cast; ring
      omega
    simp only [Nat.add_sub_cancel]
    rw [if_pos hsm, htn]
  · have hmod : v % 2 ^ (m + 1) = v + 2 ^ (m + 1) := by
      have h0 : (0 : Int) ≤ v + 2 ^ (m + 1) := by omega
      have hlt : v + 2 ^ (m + 1) < 2 ^ (m + 1) := by omega
      have heq : (v + 2 ^ (m + 1)) % 2 ^ (m + 1) = v % 2 ^ (m + 1) := by
        conv_lhs => rw [show v + 2 ^ (m + 1) = v + 2 ^ (m + 1) * 1 by ring]
        rw [Int.add_mul_emod_self_left]
      have := Int.emod_eq_of_lt h0 hlt
      omega
    rw [hmod]
    have htn : (((v + 2 ^ (m + 1)).toNat : Int)) = v + 2 ^ (m + 1) :=
      Int.toNat_of_nonneg (by omega)
    have hge : ¬ (v + 2 ^ (m + 1)).toNat < 2 ^ m := by
      have : ((2 : Int) ^ m) = ((2 ^ m : Nat) : Int) := by push_cast; ring
      omega
    simp only [Nat.add_sub_cancel]
    rw [if_neg hge]
    have : ((2 : Int) ^ (m + 1)) = ((2 ^ (m + 1) : Nat) : Int) := by
      push_cast; ring
    omega

theorem convertfn_lt {e h : Endianness} {w v : Nat} (hv : v < 256 ^ w) :
    convertfn e h w v < 256 ^ w := by
  cases e <;> cases h <;>
    first
      | exact hv
      | exact byteswap_lt hv

/-- The signed `from_bytes` is the two's-complement reading of the
bit-level `from_bytes`. -/
theorem sfrom_bytes_eq {e h : Endianness} {w : Nat} {buf : List Nat}
    (hbuf : WFBuf w buf) :
    sfrom_bytes e h w buf = toSigned (8 * w) (from_bytes e h w buf) := by
  have hlt : transmuteOfBytes h buf < 2 ^ (8 * w) := by
    rw [← pow256_eq]
    cases h with
    | LittleEndian => exact fromBytesLE_lt hbuf
    | BigEndian => exact fromBytesLE_lt (WFBuf_reverse hbuf)
  unfold sfrom_bytes int_convertfn from_bytes
  rw [fromSigned_toSigned hlt]

/-- The signed `to_bytes` is the bit-level `to_bytes` of the
two's-complement bit pattern. -/
theorem sto_bytes_eq (e h : Endianness) (w : Nat) (v : Int) :
    sto_bytes e h w v = to_bytes e h w (fromSigned (8 * w) v) := by
  have hlt : convertfn e h w (fromSigned (8 * w) v) < 256 ^ w :=
    convertfn_lt (by rw [pow256_eq]; exact fromSigned_lt _ v)
  unfold sto_bytes int_convertfn to_bytes
  rw [fromSigned_toSigned (by rw [← pow256_eq]; exact hlt)]

/-- Signed round trip: decoding an encoded representable value gives the
value back. -/
theorem sfrom_bytes_sto_bytes {e h : Endianness} {w : Nat} {v : Int}
    (hw : 0 < w) (h1 : -(2 ^ (8 * w - 1)) ≤ v) (h2 : v < 2 ^ (8 * w - 1)) :
    sfrom_bytes e h w (sto_bytes e h w v) = v := by
  rw [sto_bytes_eq, sfrom_bytes_eq (WFBuf_to_bytes e h w _),
    from_bytes_to_bytes (by rw [pow256_eq]; exact fromSigned_lt _ v),
    toSigned_fromSigned (by omega) h1 h2]

/-- Signed inverse round trip: encoding a decoded exact-width buffer gives
the buffer back. -/
theorem sto_bytes_sfrom_bytes {e h : Endianness} {w : Nat} {buf : List Nat}
    (hbuf : WFBuf w buf) :
    sto_bytes e h w (sfrom_bytes e h w buf) = buf := by
  rw [sfrom_bytes_eq hbuf, sto_bytes_eq,
    fromSigned_toSigned (by rw [← pow256_eq]; exact from_bytes_lt (e := e) (h := h) hbuf),
    to_bytes_from_bytes hbuf]

/-! ## Floats

The float arm of `impl_bytetransform!` (lines 102-122) converts through
the unsigned integer of matching width (`f32 ↔ u32`, `f64 ↔ u64`).  `f32`
and `f64` values are represented here by their IEEE-754 bit patterns, so
the outer `transmute` between `fN` and `uN` is the identity. -/

/-- Float arm `from_bytes`:
`unsafe { transmute(transmute::<_, uN>(buf).convertfn()) }` (line 108);
the outer `transmute uN -> fN` is the identity on bit patterns. -/
def ffrom_bytes (e h : Endianness) (w : Nat) (buf : List Nat) : Nat :=
  convertfn e h w (transmuteOfBytes h buf)

/-- Float arm `to_bytes`:
`unsafe { transmute(transmute::<_, uN>(val).convertfn()) }` (line 113);
the inner `transmute fN -> uN` is the identity on bit patterns. -/
def fto_bytes (e h : Endianness) (w : Nat) (v : Nat) : List Nat :=
  transmuteToBytes h w (convertfn e h w v)

theorem ffrom_bytes_eq (e h : Endianness) (w : Nat) (buf : List Nat) :
    ffrom_bytes e h w buf = from_bytes e h w buf := rfl

theorem fto_bytes_eq (e h : Endianness) (w : Nat) (v : Nat) :
    fto_bytes e h w v = to_bytes e h w v := rfl

/-! ## The `ByteTransform` trait and its twenty impls -/

/-- The trait `ByteTransform<T>` (lines 38-50): an associated buffer type
`[u8; size]`, `from_bytes`, `to_bytes` and the zeroed `buffer()`. -/
structure ByteTransform (α : Type) where
  size : Nat
  from_bytes : List Nat → α
  to_bytes : α → List Nat
  buffer : List Nat

/-- `impl ByteTransform<u8> for $byteorder` with `$typesize = 1`. -/
def u8T (e h : Endianness) : ByteTransform Nat :=
  ⟨1, from_bytes e h 1, to_bytes e h 1, List.replicate 1 0⟩

/-- `impl ByteTransform<u16> for $byteorder` with `$typesize = 2`. -/
def u16T (e h : Endianness) : ByteTransform Nat :=
  ⟨2, from_bytes e h 2, to_bytes e h 2, List.replicate 2 0⟩

/-- `impl ByteTransform<u32> for $byteorder` with `$typesize = 4`. -/
def u32T (e h : Endianness) : ByteTransform Nat :=
  ⟨4, from_bytes e h 4, to_bytes e h 4, List.replicate 4 0⟩

/-- `impl ByteTransform<u64> for $byteorder` with `$typesize = 8`. -/
def u64T (e h : Endianness) : ByteTransform Nat :=
  ⟨8, from_bytes e h 8, to_bytes e h 8, List.replicate 8 0⟩

/-- `impl ByteTransform<i8> for $byteorder` with `$typesize = 1`. -/
def i8T (e h : Endianness) : ByteTransform Int :=
  ⟨1, sfrom_bytes e h 1, sto_bytes e h 1, List.replicate 1 0⟩

/-- `impl ByteTransform<i16> for $byteorder` with `$typesize = 2`. -/
def i16T (e h : Endianness) : ByteTransform Int :=
  ⟨2, sfrom_bytes e h 2, sto_bytes e h 2, List.replicate 2 0⟩

/-- `impl ByteTransform<i32> for $byteorder` with `$typesize = 4`. -/
def i32T (e h : Endianness) : ByteTransform Int :=
  ⟨4, sfrom_bytes e h 4, sto_bytes e h 4, List.replicate 4 0⟩

/-- `impl ByteTransform<i64> for $byteorder` with `$typesize = 8`. -/
def i64T (e h : Endianness) : ByteTransform Int :=
  ⟨8, sfrom_bytes e h 8, sto_bytes e h 8, List.replicate 8 0⟩

/-- `impl ByteTransform<f32> for $byteorder` with `$typesize = 4`,
`$convertas = u32`; `f32` values are their bit patterns. -/
def f32T (e h : Endianness) : ByteTransform Nat :=
  ⟨4, ffrom_bytes e h 4, fto_bytes e h 4, List.replicate 4 0⟩

/-- `impl ByteTransform<f64> for $byteorder` with `$typesize = 8`,
`$convertas = u64`; `f64` values are their bit patterns. -/
def f64T (e h : Endianness) : ByteTransform Nat :=
  ⟨8, ffrom_bytes e h 8, fto_bytes e h 8, List.replicate 8 0⟩

/-! ## Stream extension operations

`read_as` / `write_as` are generic over `std::io::Read` / `std::io::Write`
collaborators; those traits are external to the crate, so they are
modelled by the minimal collaborator contracts of the spec (§6): a byte
source's `read` attempts to fill an `n`-byte buffer and reports the bytes
actually placed (or an error of its own); a byte sink's `write_all` either
accepts a whole buffer or fails.  Errors are modelled by their message
strings; the short-read error of `read_as` is
`io::Error::new(ErrorKind::Other, "could not read all bytes")`. -/

/-- A byte source (the `io::Read` collaborator), with explicit state. -/
structure ByteSource (σ : Type) where
  read : σ → Nat → Except String (List Nat) × σ

/-- A byte sink (the `io::Write` collaborator, at the granularity of its
`write_all` operation), with explicit state. -/
structure ByteSink (σ : Type) where
  write_all : σ → List Nat → Except String Unit × σ

/-- `EndianReadExt::read_as` (lines 140-150): allocate `B::buffer()`,
issue a single `read`, fail with "could not read all bytes" when the
returned length differs from the buffer length, otherwise decode. -/
def read_as {σ α : Type} (src : ByteSource σ) (B : ByteTransform α)
    (s : σ) : Except String α × σ :=
  match src.read s B.buffer.length with
  | (.error err, s₁) => (.error err, s₁)
  | (.ok bytes, s₁) =>
    if bytes.length ≠ B.buffer.length then
      (.error "could not read all bytes", s₁)
    else
      (.ok (B.from_bytes bytes), s₁)

/-- `EndianWriteExt::write_as` (lines 155-158): encode, then one
`write_all` of the encoded buffer. -/
def write_as {σ α : Type} (snk : ByteSink σ) (B : ByteTransform α)
    (s : σ) (v : α) : Except String Unit × σ :=
  snk.write_all s (B.to_bytes v)

/-- Instrumentation: a wrapper source that also logs the size of every
read request made to it. -/
def loggingSource {σ : Type} (src : ByteSource σ) :
    ByteSource (σ × List Nat) where
  read := fun s n =>
    match src.read s.1 n with
    | (r, s') => (r, (s', s.2 ++ [n]))

/-- Instrumentation: a wrapper sink that also logs the buffer of every
`write_all` call made to it. -/
def loggingSink {σ : Type} (snk : ByteSink σ) :
    ByteSink (σ × List (List Nat)) where
  write_all := fun s buf =>
    match snk.write_all s.1 buf with
    | (r, s') => (r, (s', s.2 ++ [buf]))

/-- `&[u8]` as `io::Read`: a read copies `min(n, remaining)` bytes and
advances past them (never an error at the source's level). -/
def sliceSource : ByteSource (List Nat) where
  read := fun s n => (.ok (s.take n), s.drop n)

/-- `&mut [u8]` as `io::Write`, at `write_all` granularity, abstracted to
its remaining capacity: a buffer that fits is accepted whole; a larger
buffer makes `write_all` fail after filling the remaining capacity. -/
def capSink : ByteSink Nat where
  write_all := fun cap buf =>
    if buf.length ≤ cap then (.ok (), cap - buf.length)
    else (.error "failed to write whole buffer", 0)

/-! ## Spec-side byte-order readings

Independent renderings of the spec's byte-order rule (§4.1): Big endian
reads the most significant byte first, Little endian the least significant
byte first. -/

/-- Most-significant-byte-first interpretation of a buffer. -/
def msbFirst (buf : List Nat) : Nat :=
  buf.foldl (fun a b => 256 * a + b) 0

/-- Least-significant-byte-first interpretation of a buffer. -/
def lsbFirst (buf : List Nat) : Nat :=
  buf.foldr (fun b a => 256 * a + b) 0

theorem lsbFirst_eq (buf : List Nat) : lsbFirst buf = fromBytesLE buf := by
  induction buf with
  | nil => rfl
  | cons b rest ih =>
    simp only [lsbFirst, List.foldr_cons, fromBytesLE] at ih ⊢
    omega

theorem fromBytesLE_append_singleton (l : List Nat) (b : Nat) :
    fromBytesLE (l ++ [b]) = fromBytesLE l + b * 256 ^ l.length := by
  induction l with
  | nil => simp [fromBytesLE]
  | cons x t ih =>
    show x + 256 * fromBytesLE (t ++ [b]) =
      x + 256 * fromBytesLE t + b * 256 ^ (t.length + 1)
    rw [ih]; ring

theorem msbFirst_foldl (l : List Nat) (acc : Nat) :
    l.foldl (fun a b => 256 * a + b) acc =
      acc * 256 ^ l.length + fromBytesLE l.reverse := by
  induction l generalizing acc with
  | nil => simp [fromBytesLE]
  | cons b t ih =>
    simp only [List.foldl_cons, ih, List.reverse_cons, List.length_cons,
      fromBytesLE_append_singleton, List.length_reverse]
    ring

theorem msbFirst_eq (buf : List Nat) :
    msbFirst buf = fromBytesLE buf.reverse := by
  simp [msbFirst, msbFirst_foldl]

/-! ## Helper lemmas about the stream operations -/

theorem read_as_log {σ α : Type} (src : ByteSource σ) (B : ByteTransform α)
    (s : σ) (log : List Nat) :
    (read_as (loggingSource src) B (s, log)).2.2 = log ++ [B.buffer.length] := by
  unfold read_as loggingSource
  rcases hr : src.read s B.buffer.length with ⟨r, s'⟩
  cases r with
  | error err => simp [hr]
  | ok bytes =>
    simp only [hr]
    split <;> rfl

theorem read_as_err {σ α : Type} {src : ByteSource σ} {B : ByteTransform α}
    {s s₁ : σ} {msg : String}
    (hr : src.read s B.buffer.length = (.error msg, s₁)) :
    read_as src B s = (.error msg, s₁) := by
  unfold read_as
  rw [hr]

theorem read_as_short {σ α : Type} {src : ByteSource σ} {B : ByteTransform α}
    {s s₁ : σ} {bytes : List Nat}
    (hr : src.read s B.buffer.length = (.ok bytes, s₁))
    (hlen : bytes.length < B.buffer.length) :
    read_as src B s = (.error "could not read all bytes", s₁) := by
  unfold read_as
  rw [hr]
  simp [Nat.ne_of_lt hlen]

theorem read_as_ok {σ α : Type} {src : ByteSource σ} {B : ByteTransform α}
    {s s₁ : σ} {bytes : List Nat}
    (hr : src.read s B.buffer.length = (.ok bytes, s₁))
    (hlen : bytes.length = B.buffer.length) :
    read_as src B s = (.ok (B.from_bytes bytes), s₁) := by
  unfold read_as
  rw [hr]
  simp [hlen]

theorem read_as_error_cases {σ α : Type} {src : ByteSource σ}
    {B : ByteTransform α} {s : σ} {msg : String}
    (h : (read_as src B s).1 = .error msg) :
    (src.read s B.buffer.length).1 = .error msg ∨
      (msg = "could not read all bytes" ∧
        ∃ bytes, (src.read s B.buffer.length).1 = .ok bytes ∧
          bytes.length ≠ B.buffer.length) := by
  unfold read_as at h
  rcases hr : src.read s B.buffer.length with ⟨r, s'⟩
  rw [hr] at h
  cases r with
  | error err => left; simp at h ⊢; simp [h]
  | ok bytes =>
    right
    by_cases hl : bytes.length = B.buffer.length
    · simp [hl] at h
    · simp [hl] at h
      exact ⟨h.symm, bytes, rfl, hl⟩

theorem write_as_log {σ α : Type} (snk : ByteSink σ) (B : ByteTransform α)
    (s : σ) (log : List (List Nat)) (v : α) :
    (write_as (loggingSink snk) B (s, log) v).2.2 = log ++ [B.to_bytes v] := by
  unfold write_as loggingSink
  rcases hw : snk.write_all s (B.to_bytes v) with ⟨r, s'⟩
  simp [hw]

theorem write_as_eq {σ α : Type} (snk : ByteSink σ) (B : ByteTransform α)
    (s : σ) (v : α) :
    write_as snk B s v = snk.write_all s (B.to_bytes v) := rfl

theorem capSink_short {cap : Nat} {buf : List Nat} (h : cap < buf.length) :
    ByteSink.write_all capSink cap buf = (.error "failed to write whole buffer", 0) := by
  unfold capSink
  simp [Nat.not_le.mpr h]

/-! ## Range of the signed decode -/

theorem toSigned_range {nbits u : Nat} (hn : 0 < nbits) (hu : u < 2 ^ nbits) :
    -(2 ^ (nbits - 1)) ≤ toSigned nbits u ∧
      toSigned nbits u < 2 ^ (nbits - 1) := by
  obtain ⟨m, rfl⟩ : ∃ m, nbits = m + 1 := ⟨nbits - 1, by omega⟩
  have hpow : (2 : Int) ^ (m + 1) = 2 ^ m * 2 := by ring
  have hmpos : (0 : Int) < 2 ^ m := by positivity
  have hcast : ((2 ^ m : Nat) : Int) = 2 ^ m := by push_cast; ring
  have hcast' : ((2 ^ (m + 1) : Nat) : Int) = 2 ^ (m + 1) := by push_cast; ring
  unfold toSigned
  simp only [Nat.add_sub_cancel]
  split
  · constructor <;> omega
  · constructor <;> omega

/-! ## Byte-reversal relation between the two tags -/

theorem to_bytes_big_reverse (h : Endianness) (w v : Nat) :
    to_bytes .BigEndian h w v = (to_bytes .LittleEndian h w v).reverse := by
  rw [to_bytes_big, to_bytes_little]

theorem sto_bytes_big_reverse (h : Endianness) (w : Nat) (v : Int) :
    sto_bytes .BigEndian h w v = (sto_bytes .LittleEndian h w v).reverse := by
  rw [sto_bytes_eq, sto_bytes_eq, to_bytes_big_reverse]

/-! ## Lengths of the signed and float encodes -/

theorem length_sto_bytes (e h : Endianness) (w : Nat) (v : Int) :
    (sto_bytes e h w v).length = w := by
  rw [sto_bytes_eq]
  exact length_to_bytes e h w _

theorem length_fto_bytes (e h : Endianness) (w v : Nat) :
    (fto_bytes e h w v).length = w := by
  rw [fto_bytes_eq]
  exact length_to_bytes e h w v

/-! ## Injectivity of the encodes -/

theorem to_bytes_inj {e h : Endianness} {w v v' : Nat}
    (hv : v < 256 ^ w) (hv' : v' < 256 ^ w)
    (heq : to_bytes e h w v = to_bytes e h w v') : v = v' := by
  have := congrArg (from_bytes e h w) heq
  rwa [from_bytes_to_bytes hv, from_bytes_to_bytes hv'] at this

theorem sto_bytes_inj {e h : Endianness} {w : Nat} {v v' : Int}
    (hw : 0 < w)
    (h1 : -(2 ^ (8 * w - 1)) ≤ v) (h2 : v < 2 ^ (8 * w - 1))
    (h1' : -(2 ^ (8 * w - 1)) ≤ v') (h2' : v' < 2 ^ (8 * w - 1))
    (heq : sto_bytes e h w v = sto_bytes e h w v') : v = v' := by
  have := congrArg (sfrom_bytes e h w) heq
  rwa [sfrom_bytes_sto_bytes hw h1 h2, sfrom_bytes_sto_bytes hw h1' h2'] at this

/-! ## The claims -/

/-- C1: for every supported primitive type (u8, u16, u32, u64, i8, i16,
i32, i64, f32, f64), every endianness tag (and every host byte order),
and every representable value `v`, decoding the buffer produced by
encoding `v` yields `v` again (float values are their bit patterns). -/
theorem C1_round_trip (e h : Endianness) :
    (∀ v : Nat, v < 2 ^ 8 → (u8T e h).from_bytes ((u8T e h).to_bytes v) = v) ∧
    (∀ v : Nat, v < 2 ^ 16 → (u16T e h).from_bytes ((u16T e h).to_bytes v) = v) ∧
    (∀ v : Nat, v < 2 ^ 32 → (u32T e h).from_bytes ((u32T e h).to_bytes v) = v) ∧
    (∀ v : Nat, v < 2 ^ 64 → (u64T e h).from_bytes ((u64T e h).to_bytes v) = v) ∧
    (∀ v : Int, -(2 ^ 7) ≤ v → v < 2 ^ 7 →
      (i8T e h).from_bytes ((i8T e h).to_bytes v) = v) ∧
    (∀ v : Int, -(2 ^ 15) ≤ v → v < 2 ^ 15 →
      (i16T e h).from_bytes ((i16T e h).to_bytes v) = v) ∧
    (∀ v : Int, -(2 ^ 31) ≤ v → v < 2 ^ 31 →
      (i32T e h).from_bytes ((i32T e h).to_bytes v) = v) ∧
    (∀ v : Int, -(2 ^ 63) ≤ v → v < 2 ^ 63 →
      (i64T e h).from_bytes ((i64T e h).to_bytes v) = v) ∧
    (∀ v : Nat, v < 2 ^ 32 → (f32T e h).from_bytes ((f32T e h).to_bytes v) = v) ∧
    (∀ v : Nat, v < 2 ^ 64 → (f64T e h).from_bytes ((f64T e h).to_bytes v) = v) := by
  refine ⟨?_, ?_, ?_, ?_, ?_, ?_, ?_, ?_, ?_, ?_⟩
  · exact fun v hv => from_bytes_to_bytes (by norm_num at hv ⊢; exact hv)
  · exact fun v hv => from_bytes_to_bytes (by norm_num at hv ⊢; exact hv)
  · exact fun v hv => from_bytes_to_bytes (by norm_num at hv ⊢; exact hv)
  · exact fun v hv => from_bytes_to_bytes (by norm_num at hv ⊢; exact hv)
  · exact fun v h1 h2 => sfrom_bytes_sto_bytes (by norm_num)
      (by norm_num at h1 ⊢; exact h1) (by norm_num at h2 ⊢; exact h2)
  · exact fun v h1 h2 => sfrom_bytes_sto_bytes (by norm_num)
      (by norm_num at h1 ⊢; exact h1) (by norm_num at h2 ⊢; exact h2)
  · exact fun v h1 h2 => sfrom_bytes_sto_bytes (by norm_num)
      (by norm_num at h1 ⊢; exact h1) (by norm_num at h2 ⊢; exact h2)
  · exact fun v h1 h2 => sfrom_bytes_sto_bytes (by norm_num)
      (by norm_num at h1 ⊢; exact h1) (by norm_num at h2 ⊢; exact h2)
  · intro v hv
    show ffrom_bytes e h 4 (fto_bytes e h 4 v) = v
    rw [ffrom_bytes_eq, fto_bytes_eq]
    exact from_bytes_to_bytes (by norm_num at hv ⊢; exact hv)
  · intro v hv
    show ffrom_bytes e h 8 (fto_bytes e h 8 v) = v
    rw [ffrom_bytes_eq, fto_bytes_eq]
    exact from_bytes_to_bytes (by norm_num at hv ⊢; exact hv)

/-- Witness for C1 at concrete values (the crate's own test values where
applicable). -/
theorem C1_round_trip_witness :
    (u8T .BigEndian .LittleEndian).from_bytes
      ((u8T .BigEndian .LittleEndian).to_bytes 17) = 17 ∧
    (u16T .BigEndian .LittleEndian).from_bytes
      ((u16T .BigEndian .LittleEndian).to_bytes 4386) = 4386 ∧
    (u32T .BigEndian .LittleEndian).from_bytes
      ((u32T .BigEndian .LittleEndian).to_bytes 287454020) = 287454020 ∧
    (u64T .BigEndian .LittleEndian).from_bytes
      ((u64T .BigEndian .LittleEndian).to_bytes 1234605616436508552) =
        1234605616436508552 ∧
    (i8T .BigEndian .LittleEndian).from_bytes
      ((i8T .BigEndian .LittleEndian).to_bytes (-100)) = -100 ∧
    (i16T .BigEndian .LittleEndian).from_bytes
      ((i16T .BigEndian .LittleEndian).to_bytes (-30000)) = -30000 ∧
    (i32T .BigEndian .LittleEndian).from_bytes
      ((i32T .BigEndian .LittleEndian).to_bytes (-2000000000)) = -2000000000 ∧
    (i64T .BigEndian .LittleEndian).from_bytes
      ((i64T .BigEndian .LittleEndian).to_bytes (-8613303245920329199)) =
        -8613303245920329199 ∧
    (f32T .BigEndian .LittleEndian).from_bytes
      ((f32T .BigEndian .LittleEndian).to_bytes 0x11223344) = 0x11223344 ∧
    (f64T .BigEndian .LittleEndian).from_bytes
      ((f64T .BigEndian .LittleEndian).to_bytes 0x1122334455667788) =
        0x1122334455667788 := by
  obtain ⟨h1, h2, h3, h4, h5, h6, h7, h8, h9, h10⟩ :=
    C1_round_trip .BigEndian .LittleEndian
  exact ⟨h1 17 (by norm_num), h2 4386 (by norm_num), h3 287454020 (by norm_num),
    h4 1234605616436508552 (by norm_num),
    h5 (-100) (by norm_num) (by norm_num),
    h6 (-30000) (by norm_num) (by norm_num),
    h7 (-2000000000) (by norm_num) (by norm_num),
    h8 (-8613303245920329199) (by norm_num) (by norm_num),
    h9 0x11223344 (by norm_num), h10 0x1122334455667788 (by norm_num)⟩

/-- C2: integer decode honors the tag's byte order (Big:
most-significant-byte first, Little: least-significant-byte first),
endianness is a no-op for 1-byte types, and decoding bytes
`0x11 0x22 0x33 0x44` as a u32 yields `0x11223344` (Big) and
`0x44332211` (Little). -/
theorem C2_byte_order (h : Endianness) :
    (∀ (w : Nat) (buf : List Nat), WFBuf w buf →
      from_bytes .BigEndian h w buf = msbFirst buf) ∧
    (∀ (w : Nat) (buf : List Nat), WFBuf w buf →
      from_bytes .LittleEndian h w buf = lsbFirst buf) ∧
    (∀ b : Nat, b < 256 →
      from_bytes .BigEndian h 1 [b] = from_bytes .LittleEndian h 1 [b]) ∧
    (∀ v : Nat, to_bytes .BigEndian h 1 v = to_bytes .LittleEndian h 1 v) ∧
    (u32T .BigEndian h).from_bytes [0x11, 0x22, 0x33, 0x44] = 0x11223344 ∧
    (u32T .LittleEndian h).from_bytes [0x11, 0x22, 0x33, 0x44] = 0x44332211 := by
  refine ⟨?_, ?_, ?_, ?_, ?_, ?_⟩
  · intro w buf hbuf
    rw [from_bytes_big hbuf, msbFirst_eq]
  · intro w buf hbuf
    rw [from_bytes_little hbuf, lsbFirst_eq]
  · intro b hb
    have hbuf : WFBuf 1 [b] := ⟨rfl, by intro x hx; simp at hx; omega⟩
    rw [from_bytes_big hbuf, from_bytes_little hbuf, List.reverse_singleton]
  · intro v
    rw [to_bytes_big_reverse, to_bytes_little]
    rfl
  · cases h <;> decide
  · cases h <;> decide

/-- Witness for C2 at concrete inputs. -/
theorem C2_byte_order_witness :
    from_bytes .BigEndian .LittleEndian 2 [0xAB, 0xCD] = msbFirst [0xAB, 0xCD] ∧
    from_bytes .LittleEndian .LittleEndian 2 [0xAB, 0xCD] = lsbFirst [0xAB, 0xCD] ∧
    from_bytes .BigEndian .LittleEndian 1 [0x7F] =
      from_bytes .LittleEndian .LittleEndian 1 [0x7F] ∧
    (u32T .BigEndian .LittleEndian).from_bytes [0x11, 0x22, 0x33, 0x44] =
      0x11223344 ∧
    (u32T .LittleEndian .LittleEndian).from_bytes [0x11, 0x22, 0x33, 0x44] =
      0x44332211 := by
  obtain ⟨h1, h2, h3, _, h5, h6⟩ := C2_byte_order .LittleEndian
  exact ⟨h1 2 [0xAB, 0xCD] (by decide), h2 2 [0xAB, 0xCD] (by decide),
    h3 0x7F (by decide), h5, h6⟩

/-- C3: `read_as` issues exactly one read request, for exactly the
buffer size of the primitive type (1/2/4/8 bytes); when that single read
returns fewer bytes, `read_as` fails with the short-read error and
returns no value, without retrying. -/
theorem C3_single_read (σ α : Type) (src : ByteSource σ)
    (B : ByteTransform α) (s : σ) (log : List Nat) :
    ((read_as (loggingSource src) B (s, log)).2.2 =
      log ++ [B.buffer.length]) ∧
    (∀ (bytes : List Nat) (s₁ : σ),
      src.read s B.buffer.length = (.ok bytes, s₁) →
      bytes.length < B.buffer.length →
      read_as src B s = (.error "could not read all bytes", s₁)) ∧
    (∀ e hb : Endianness,
      (u8T e hb).buffer.length = 1 ∧ (u16T e hb).buffer.length = 2 ∧
      (u32T e hb).buffer.length = 4 ∧ (u64T e hb).buffer.length = 8 ∧
      (i8T e hb).buffer.length = 1 ∧ (i16T e hb).buffer.length = 2 ∧
      (i32T e hb).buffer.length = 4 ∧ (i64T e hb).buffer.length = 8 ∧
      (f32T e hb).buffer.length = 4 ∧ (f64T e hb).buffer.length = 8) := by
  refine ⟨read_as_log src B s log, ?_, ?_⟩
  · intro bytes s₁ hr hlen
    exact read_as_short hr hlen
  · intro e hb
    exact ⟨rfl, rfl, rfl, rfl, rfl, rfl, rfl, rfl, rfl, rfl⟩

/-- Witness for C3: a 3-byte slice source cannot satisfy a u32 read. -/
theorem C3_single_read_witness :
    (read_as (loggingSource sliceSource) (u32T .BigEndian .LittleEndian)
      ([1, 2, 3], [])).2.2 =
      [] ++ [(u32T .BigEndian .LittleEndian).buffer.length] ∧
    read_as sliceSource (u32T .BigEndian .LittleEndian) [1, 2, 3] =
      (.error "could not read all bytes", []) := by
  obtain ⟨hlog, hshort, _⟩ := C3_single_read (List Nat) Nat sliceSource
    (u32T .BigEndian .LittleEndian) [1, 2, 3] []
  exact ⟨hlog, hshort [1, 2, 3] [] rfl (by decide)⟩

/-- C4: `write_as` performs exactly one `write_all` of the `n`-byte
encoded buffer against the sink per call, with no internal buffering,
retry or partial-write recovery; a sink accepting fewer than `n` bytes
makes it fail with a short-write error. -/
theorem C4_single_write (σ α : Type) (snk : ByteSink σ)
    (B : ByteTransform α) (s : σ) (log : List (List Nat)) (v : α) :
    ((write_as (loggingSink snk) B (s, log) v).2.2 =
      log ++ [B.to_bytes v]) ∧
    (write_as snk B s v = snk.write_all s (B.to_bytes v)) ∧
    (∀ cap : Nat, cap < (B.to_bytes v).length →
      write_as capSink B cap v =
        (.error "failed to write whole buffer", 0)) := by
  refine ⟨write_as_log snk B s log v, rfl, ?_⟩
  intro cap hcap
  rw [write_as_eq]
  exact capSink_short hcap

/-- Witness for C4: one logged `write_all` of the 2-byte u16 buffer, and
a capacity-1 sink makes a u16 write fail. -/
theorem C4_single_write_witness :
    (write_as (loggingSink capSink) (u16T .BigEndian .LittleEndian)
      (5, []) 0x1122).2.2 =
      [] ++ [(u16T .BigEndian .LittleEndian).to_bytes 0x1122] ∧
    write_as capSink (u16T .BigEndian .LittleEndian) 1 0x1122 =
      (.error "failed to write whole buffer", 0) := by
  obtain ⟨hlog, _, hshort⟩ := C4_single_write Nat Nat capSink
    (u16T .BigEndian .LittleEndian) 5 [] 0x1122
  exact ⟨hlog, hshort 1 (by decide)⟩

/-- C5: for every primitive type of width greater than 1, the Big-endian
encoding of a value is the byte reversal of its Little-endian encoding;
for the 1-byte types the two encodings are identical. -/
theorem C5_cross_endianness (h : Endianness) :
    (∀ v : Nat, (u16T .BigEndian h).to_bytes v =
      ((u16T .LittleEndian h).to_bytes v).reverse) ∧
    (∀ v : Nat, (u32T .BigEndian h).to_bytes v =
      ((u32T .LittleEndian h).to_bytes v).reverse) ∧
    (∀ v : Nat, (u64T .BigEndian h).to_bytes v =
      ((u64T .LittleEndian h).to_bytes v).reverse) ∧
    (∀ v : Int, (i16T .BigEndian h).to_bytes v =
      ((i16T .LittleEndian h).to_bytes v).reverse) ∧
    (∀ v : Int, (i32T .BigEndian h).to_bytes v =
      ((i32T .LittleEndian h).to_bytes v).reverse) ∧
    (∀ v : Int, (i64T .BigEndian h).to_bytes v =
      ((i64T .LittleEndian h).to_bytes v).reverse) ∧
    (∀ v : Nat, (f32T .BigEndian h).to_bytes v =
      ((f32T .LittleEndian h).to_bytes v).reverse) ∧
    (∀ v : Nat, (f64T .BigEndian h).to_bytes v =
      ((f64T .LittleEndian h).to_bytes v).reverse) ∧
    (∀ v : Nat, (u8T .BigEndian h).to_bytes v =
      (u8T .LittleEndian h).to_bytes v) ∧
    (∀ v : Int, (i8T .BigEndian h).to_bytes v =
      (i8T .LittleEndian h).to_bytes v) := by
  refine ⟨?_, ?_, ?_, ?_, ?_, ?_, ?_, ?_, ?_, ?_⟩
  · exact fun v => to_bytes_big_reverse h 2 v
  · exact fun v => to_bytes_big_reverse h 4 v
  · exact fun v => to_bytes_big_reverse h 8 v
  · exact fun v => sto_bytes_big_reverse h 2 v
  · exact fun v => sto_bytes_big_reverse h 4 v
  · exact fun v => sto_bytes_big_reverse h 8 v
  · intro v
    show fto_bytes .BigEndian h 4 v = (fto_bytes .LittleEndian h 4 v).reverse
    rw [fto_bytes_eq, fto_bytes_eq]
    exact to_bytes_big_reverse h 4 v
  · intro v
    show fto_bytes .BigEndian h 8 v = (fto_bytes .LittleEndian h 8 v).reverse
    rw [fto_bytes_eq, fto_bytes_eq]
    exact to_bytes_big_reverse h 8 v
  · intro v
    show to_bytes .BigEndian h 1 v = to_bytes .LittleEndian h 1 v
    rw [to_bytes_big_reverse, to_bytes_little]
    rfl
  · intro v
    show sto_bytes .BigEndian h 1 v = sto_bytes .LittleEndian h 1 v
    rw [sto_bytes_big_reverse, sto_bytes_eq, to_bytes_little]
    rfl

/-- C6: the float transforms go through the unsigned integer of matching
width (f32 via u32, f64 via u64) with the same byte-order rule, the
value itself being the bit-for-bit reinterpretation (floats are their bit
patterns here), and encode is the exact inverse of decode. -/
theorem C6_float_bitcast (e h : Endianness) :
    (∀ buf : List Nat,
      (f32T e h).from_bytes buf = (u32T e h).from_bytes buf) ∧
    (∀ v : Nat, (f32T e h).to_bytes v = (u32T e h).to_bytes v) ∧
    (∀ buf : List Nat,
      (f64T e h).from_bytes buf = (u64T e h).from_bytes buf) ∧
    (∀ v : Nat, (f64T e h).to_bytes v = (u64T e h).to_bytes v) ∧
    (∀ v : Nat, v < 2 ^ 32 →
      (f32T e h).from_bytes ((f32T e h).to_bytes v) = v) ∧
    (∀ buf : List Nat, WFBuf 4 buf →
      (f32T e h).to_bytes ((f32T e h).from_bytes buf) = buf) ∧
    (∀ v : Nat, v < 2 ^ 64 →
      (f64T e h).from_bytes ((f64T e h).to_bytes v) = v) ∧
    (∀ buf : List Nat, WFBuf 8 buf →
      (f64T e h).to_bytes ((f64T e h).from_bytes buf) = buf) := by
  refine ⟨fun _ => rfl, fun _ => rfl, fun _ => rfl, fun _ => rfl,
    ?_, ?_, ?_, ?_⟩
  · intro v hv
    show ffrom_bytes e h 4 (fto_bytes e h 4 v) = v
    rw [ffrom_bytes_eq, fto_bytes_eq]
    exact from_bytes_to_bytes (by norm_num at hv ⊢; exact hv)
  · intro buf hbuf
    show fto_bytes e h 4 (ffrom_bytes e h 4 buf) = buf
    rw [ffrom_bytes_eq, fto_bytes_eq]
    exact to_bytes_from_bytes hbuf
  · intro v hv
    show ffrom_bytes e h 8 (fto_bytes e h 8 v) = v
    rw [ffrom_bytes_eq, fto_bytes_eq]
    exact from_bytes_to_bytes (by norm_num at hv ⊢; exact hv)
  · intro buf hbuf
    show fto_bytes e h 8 (ffrom_bytes e h 8 buf) = buf
    rw [ffrom_bytes_eq, fto_bytes_eq]
    exact to_bytes_from_bytes hbuf

/-- Witness for C6 at concrete bit patterns and buffers. -/
theorem C6_float_bitcast_witness :
    (f32T .BigEndian .LittleEndian).from_bytes
      ((f32T .BigEndian .LittleEndian).to_bytes 0x41200000) = 0x41200000 ∧
    (f32T .BigEndian .LittleEndian).to_bytes
      ((f32T .BigEndian .LittleEndian).from_bytes [0x11, 0x22, 0x33, 0x44]) =
      [0x11, 0x22, 0x33, 0x44] ∧
    (f64T .BigEndian .LittleEndian).from_bytes
      ((f64T .BigEndian .LittleEndian).to_bytes 0x4028000000000000) =
      0x4028000000000000 ∧
    (f64T .BigEndian .LittleEndian).to_bytes
      ((f64T .BigEndian .LittleEndian).from_bytes
        [0x11, 0x22, 0x33, 0x44, 0x55, 0x66, 0x77, 0x88]) =
      [0x11, 0x22, 0x33, 0x44, 0x55, 0x66, 0x77, 0x88] := by
  obtain ⟨_, _, _, _, h5, h6, h7, h8⟩ :=
    C6_float_bitcast .BigEndian .LittleEndian
  exact ⟨h5 0x41200000 (by norm_num), h6 [0x11, 0x22, 0x33, 0x44] (by decide),
    h7 0x4028000000000000 (by norm_num),
    h8 [0x11, 0x22, 0x33, 0x44, 0x55, 0x66, 0x77, 0x88] (by decide)⟩

/-- C7: the buffer size of each primitive type is the fixed constant
1/2/4/8 of its width, independent of the endianness tag (and of the host
byte order); encode always produces a buffer of exactly that width, and
`read_as` / `write_as` request, respectively write, exactly the buffer of
that width. -/
theorem C7_fixed_width (e h : Endianness) :
    ((u8T e h).size = 1 ∧ (u16T e h).size = 2 ∧ (u32T e h).size = 4 ∧
      (u64T e h).size = 8 ∧ (i8T e h).size = 1 ∧ (i16T e h).size = 2 ∧
      (i32T e h).size = 4 ∧ (i64T e h).size = 8 ∧ (f32T e h).size = 4 ∧
      (f64T e h).size = 8) ∧
    ((u8T e h).buffer.length = (u8T e h).size ∧
      (u16T e h).buffer.length = (u16T e h).size ∧
      (u32T e h).buffer.length = (u32T e h).size ∧
      (u64T e h).buffer.length = (u64T e h).size ∧
      (i8T e h).buffer.length = (i8T e h).size ∧
      (i16T e h).buffer.length = (i16T e h).size ∧
      (i32T e h).buffer.length = (i32T e h).size ∧
      (i64T e h).buffer.length = (i64T e h).size ∧
      (f32T e h).buffer.length = (f32T e h).size ∧
      (f64T e h).buffer.length = (f64T e h).size) ∧
    ((∀ v : Nat, ((u8T e h).to_bytes v).length = 1) ∧
      (∀ v : Nat, ((u16T e h).to_bytes v).length = 2) ∧
      (∀ v : Nat, ((u32T e h).to_bytes v).length = 4) ∧
      (∀ v : Nat, ((u64T e h).to_bytes v).length = 8) ∧
      (∀ v : Int, ((i8T e h).to_bytes v).length = 1) ∧
      (∀ v : Int, ((i16T e h).to_bytes v).length = 2) ∧
      (∀ v : Int, ((i32T e h).to_bytes v).length = 4) ∧
      (∀ v : Int, ((i64T e h).to_bytes v).length = 8) ∧
      (∀ v : Nat, ((f32T e h).to_bytes v).length = 4) ∧
      (∀ v : Nat, ((f64T e h).to_bytes v).length = 8)) ∧
    (∀ (σ α : Type) (src : ByteSource σ) (B : ByteTransform α) (s : σ)
      (log : List Nat),
      (read_as (loggingSource src) B (s, log)).2.2 =
        log ++ [B.buffer.length]) ∧
    (∀ (σ α : Type) (snk : ByteSink σ) (B : ByteTransform α) (s : σ)
      (log : List (List Nat)) (v : α),
      (write_as (loggingSink snk) B (s, log) v).2.2 =
        log ++ [B.to_bytes v]) := by
  refine ⟨⟨rfl, rfl, rfl, rfl, rfl, rfl, rfl, rfl, rfl, rfl⟩,
    ⟨rfl, rfl, rfl, rfl, rfl, rfl, rfl, rfl, rfl, rfl⟩,
    ⟨fun v => length_to_bytes e h 1 v, fun v => length_to_bytes e h 2 v,
      fun v => length_to_bytes e h 4 v, fun v => length_to_bytes e h 8 v,
      fun v => length_sto_bytes e h 1 v, fun v => length_sto_bytes e h 2 v,
      fun v => length_sto_bytes e h 4 v, fun v => length_sto_bytes e h 8 v,
      fun v => length_fto_bytes e h 4 v, fun v => length_fto_bytes e h 8 v⟩,
    fun _ _ src B s log => read_as_log src B s log,
    fun _ _ snk B s log v => write_as_log snk B s log v⟩

/-- C8: the transforms are total — every exact-width byte pattern decodes
to a representable value of the type — and the only failures of
`read_as` / `write_as` are about byte availability or acceptance: an
error of `read_as` is either the source's own error or the short-read
error, an error of `write_as` is the sink's error, and a full read always
decodes successfully. -/
theorem C8_totality (e h : Endianness) :
    (∀ buf, WFBuf 1 buf → (u8T e h).from_bytes buf < 2 ^ 8) ∧
    (∀ buf, WFBuf 2 buf → (u16T e h).from_bytes buf < 2 ^ 16) ∧
    (∀ buf, WFBuf 4 buf → (u32T e h).from_bytes buf < 2 ^ 32) ∧
    (∀ buf, WFBuf 8 buf → (u64T e h).from_bytes buf < 2 ^ 64) ∧
    (∀ buf, WFBuf 1 buf → -(2 ^ 7) ≤ (i8T e h).from_bytes buf ∧
      (i8T e h).from_bytes buf < 2 ^ 7) ∧
    (∀ buf, WFBuf 2 buf → -(2 ^ 15) ≤ (i16T e h).from_bytes buf ∧
      (i16T e h).from_bytes buf < 2 ^ 15) ∧
    (∀ buf, WFBuf 4 buf → -(2 ^ 31) ≤ (i32T e h).from_bytes buf ∧
      (i32T e h).from_bytes buf < 2 ^ 31) ∧
    (∀ buf, WFBuf 8 buf → -(2 ^ 63) ≤ (i64T e h).from_bytes buf ∧
      (i64T e h).from_bytes buf < 2 ^ 63) ∧
    (∀ buf, WFBuf 4 buf → (f32T e h).from_bytes buf < 2 ^ 32) ∧
    (∀ buf, WFBuf 8 buf → (f64T e h).from_bytes buf < 2 ^ 64) ∧
    (∀ (σ α : Type) (src : ByteSource σ) (B : ByteTransform α) (s : σ)
      (msg : String),
      (read_as src B s).1 = .error msg →
      (src.read s B.buffer.length).1 = .error msg ∨
        msg = "could not read all bytes") ∧
    (∀ (σ α : Type) (snk : ByteSink σ) (B : ByteTransform α) (s : σ)
      (v : α) (msg : String),
      (write_as snk B s v).1 = .error msg →
      (snk.write_all s (B.to_bytes v)).1 = .error msg) ∧
    (∀ (σ α : Type) (src : ByteSource σ) (B : ByteTransform α)
      (s s₁ : σ) (bytes : List Nat),
      src.read s B.buffer.length = (.ok bytes, s₁) →
      bytes.length = B.buffer.length →
      read_as src B s = (.ok (B.from_bytes bytes), s₁)) := by
  refine ⟨?_, ?_, ?_, ?_, ?_, ?_, ?_, ?_, ?_, ?_, ?_, ?_, ?_⟩
  · intro buf hbuf
    have := from_bytes_lt (e := e) (h := h) hbuf
    norm_num at this ⊢; exact this
  · intro buf hbuf
    have := from_bytes_lt (e := e) (h := h) hbuf
    norm_num at this ⊢; exact this
  · intro buf hbuf
    have := from_bytes_lt (e := e) (h := h) hbuf
    norm_num at this ⊢; exact this
  · intro buf hbuf
    have := from_bytes_lt (e := e) (h := h) hbuf
    norm_num at this ⊢; exact this
  · intro buf hbuf
    show -(2 ^ 7) ≤ sfrom_bytes e h 1 buf ∧ sfrom_bytes e h 1 buf < 2 ^ 7
    rw [sfrom_bytes_eq hbuf]
    have hn : 0 < 8 * 1 := by norm_num
    have hu : from_bytes e h 1 buf < 2 ^ (8 * 1) := by
      rw [← pow256_eq]; exact from_bytes_lt (e := e) (h := h) hbuf
    have := toSigned_range hn hu
    norm_num at this ⊢
    exact this
  · intro buf hbuf
    show -(2 ^ 15) ≤ sfrom_bytes e h 2 buf ∧ sfrom_bytes e h 2 buf < 2 ^ 15
    rw [sfrom_bytes_eq hbuf]
    have hn : 0 < 8 * 2 := by norm_num
    have hu : from_bytes e h 2 buf < 2 ^ (8 * 2) := by
      rw [← pow256_eq]; exact from_bytes_lt (e := e) (h := h) hbuf
    have := toSigned_range hn hu
    norm_num at this ⊢
    exact this
  · intro buf hbuf
    show -(2 ^ 31) ≤ sfrom_bytes e h 4 buf ∧ sfrom_bytes e h 4 buf < 2 ^ 31
    rw [sfrom_bytes_eq hbuf]
    have hn : 0 < 8 * 4 := by norm_num
    have hu : from_bytes e h 4 buf < 2 ^ (8 * 4) := by
      rw [← pow256_eq]; exact from_bytes_lt (e := e) (h := h) hbuf
    have := toSigned_range hn hu
    norm_num at this ⊢
    exact this
  · intro buf hbuf
    show -(2 ^ 63) ≤ sfrom_bytes e h 8 buf ∧ sfrom_bytes e h 8 buf < 2 ^ 63
    rw [sfrom_bytes_eq hbuf]
    have hn : 0 < 8 * 8 := by norm_num
    have hu : from_bytes e h 8 buf < 2 ^ (8 * 8) := by
      rw [← pow256_eq]; exact from_bytes_lt (e := e) (h := h) hbuf
    have := toSigned_range hn hu
    norm_num at this ⊢
    exact this
  · intro buf hbuf
    show ffrom_bytes e h 4 buf < 2 ^ 32
    rw [ffrom_bytes_eq]
    have := from_bytes_lt (e := e) (h := h) hbuf
    norm_num at this ⊢; exact this
  · intro buf hbuf
    show ffrom_bytes e h 8 buf < 2 ^ 64
    rw [ffrom_bytes_eq]
    have := from_bytes_lt (e := e) (h := h) hbuf
    norm_num at this ⊢; exact this
  · intro σ α src B s msg herr
    rcases read_as_error_cases herr with hc | hc
    · exact Or.inl hc
    · exact Or.inr hc.1
  · intro σ α snk B s v msg herr
    exact herr
  · intro σ α src B s s₁ bytes hr hlen
    exact read_as_ok hr hlen

/-- Witness for C8 at concrete buffers and a concrete short read. -/
theorem C8_totality_witness :
    (u8T .BigEndian .LittleEndian).from_bytes [0xFF] < 2 ^ 8 ∧
    (u16T .BigEndian .LittleEndian).from_bytes [0xFF, 0xFF] < 2 ^ 16 ∧
    (u32T .BigEndian .LittleEndian).from_bytes [0xFF, 0xFF, 0xFF, 0xFF] <
      2 ^ 32 ∧
    (u64T .BigEndian .LittleEndian).from_bytes
      [0xFF, 0xFF, 0xFF, 0xFF, 0xFF, 0xFF, 0xFF, 0xFF] < 2 ^ 64 ∧
    (-(2 ^ 7) ≤ (i8T .BigEndian .LittleEndian).from_bytes [0x80] ∧
      (i8T .BigEndian .LittleEndian).from_bytes [0x80] < 2 ^ 7) ∧
    (-(2 ^ 15) ≤ (i16T .BigEndian .LittleEndian).from_bytes [0x80, 0x00] ∧
      (i16T .BigEndian .LittleEndian).from_bytes [0x80, 0x00] < 2 ^ 15) ∧
    (-(2 ^ 31) ≤ (i32T .BigEndian .LittleEndian).from_bytes
        [0x80, 0x00, 0x00, 0x00] ∧
      (i32T .BigEndian .LittleEndian).from_bytes [0x80, 0x00, 0x00, 0x00] <
        2 ^ 31) ∧
    (-(2 ^ 63) ≤ (i64T .BigEndian .LittleEndian).from_bytes
        [0x80, 0x00, 0x00, 0x00, 0x00, 0x00, 0x00, 0x00] ∧
      (i64T .BigEndian .LittleEndian).from_bytes
        [0x80, 0x00, 0x00, 0x00, 0x00, 0x00, 0x00, 0x00] < 2 ^ 63) ∧
    (f32T .BigEndian .LittleEndian).from_bytes [0x7F, 0xC0, 0x00, 0x00] <
      2 ^ 32 ∧
    (f64T .BigEndian .LittleEndian).from_bytes
      [0x7F, 0xF8, 0x00, 0x00, 0x00, 0x00, 0x00, 0x00] < 2 ^ 64 ∧
    ((sliceSource.read [1, 2, 3]
        (u32T .BigEndian .LittleEndian).buffer.length).1 =
        .error "could not read all bytes" ∨
      "could not read all bytes" = "could not read all bytes") ∧
    (capSink.write_all 1
        ((u16T .BigEndian .LittleEndian).to_bytes 0x1122)).1 =
      .error "failed to write whole buffer" ∧
    read_as sliceSource (u32T .BigEndian .LittleEndian)
        [0x11, 0x22, 0x33, 0x44] =
      (.ok ((u32T .BigEndian .LittleEndian).from_bytes
        [0x11, 0x22, 0x33, 0x44]), []) := by
  obtain ⟨h1, h2, h3, h4, h5, h6, h7, h8, h9, h10, h11, h12, h13⟩ :=
    C8_totality .BigEndian .LittleEndian
  refine ⟨h1 [0xFF] (by decide), h2 [0xFF, 0xFF] (by decide),
    h3 [0xFF, 0xFF, 0xFF, 0xFF] (by decide),
    h4 [0xFF, 0xFF, 0xFF, 0xFF, 0xFF, 0xFF, 0xFF, 0xFF] (by decide),
    h5 [0x80] (by decide), h6 [0x80, 0x00] (by decide),
    h7 [0x80, 0x00, 0x00, 0x00] (by decide),
    h8 [0x80, 0x00, 0x00, 0x00, 0x00, 0x00, 0x00, 0x00] (by decide),
    h9 [0x7F, 0xC0, 0x00, 0x00] (by decide),
    h10 [0x7F, 0xF8, 0x00, 0x00, 0x00, 0x00, 0x00, 0x00] (by decide),
    h11 (List Nat) Nat sliceSource (u32T .BigEndian .LittleEndian)
      [1, 2, 3] "could not read all bytes" rfl,
    h12 Nat Nat capSink (u16T .BigEndian .LittleEndian) 1 0x1122
      "failed to write whole buffer" rfl,
    h13 (List Nat) Nat sliceSource (u32T .BigEndian .LittleEndian)
      [0x11, 0x22, 0x33, 0x44] [] [0x11, 0x22, 0x33, 0x44] rfl rfl⟩

/-- C9: encoding is also a left inverse of decoding — for every primitive
type, endianness tag (and host byte order), and exact-width buffer `b`,
`encode (decode b) = b`; so every byte pattern is the encoding of exactly
one value. -/
theorem C9_encode_decode (e h : Endianness) :
    (∀ buf, WFBuf 1 buf →
      (u8T e h).to_bytes ((u8T e h).from_bytes buf) = buf) ∧
    (∀ buf, WFBuf 2 buf →
      (u16T e h).to_bytes ((u16T e h).from_bytes buf) = buf) ∧
    (∀ buf, WFBuf 4 buf →
      (u32T e h).to_bytes ((u32T e h).from_bytes buf) = buf) ∧
    (∀ buf, WFBuf 8 buf →
      (u64T e h).to_bytes ((u64T e h).from_bytes buf) = buf) ∧
    (∀ buf, WFBuf 1 buf →
      (i8T e h).to_bytes ((i8T e h).from_bytes buf) = buf) ∧
    (∀ buf, WFBuf 2 buf →
      (i16T e h).to_bytes ((i16T e h).from_bytes buf) = buf) ∧
    (∀ buf, WFBuf 4 buf →
      (i32T e h).to_bytes ((i32T e h).from_bytes buf) = buf) ∧
    (∀ buf, WFBuf 8 buf →
      (i64T e h).to_bytes ((i64T e h).from_bytes buf) = buf) ∧
    (∀ buf, WFBuf 4 buf →
      (f32T e h).to_bytes ((f32T e h).from_bytes buf) = buf) ∧
    (∀ buf, WFBuf 8 buf →
      (f64T e h).to_bytes ((f64T e h).from_bytes buf) = buf) := by
  refine ⟨fun buf hbuf => to_bytes_from_bytes hbuf,
    fun buf hbuf => to_bytes_from_bytes hbuf,
    fun buf hbuf => to_bytes_from_bytes hbuf,
    fun buf hbuf => to_bytes_from_bytes hbuf,
    fun buf hbuf => sto_bytes_sfrom_bytes hbuf,
    fun buf hbuf => sto_bytes_sfrom_bytes hbuf,
    fun buf hbuf => sto_bytes_sfrom_bytes hbuf,
    fun buf hbuf => sto_bytes_sfrom_bytes hbuf,
    ?_, ?_⟩
  · intro buf hbuf
    show fto_bytes e h 4 (ffrom_bytes e h 4 buf) = buf
    rw [ffrom_bytes_eq, fto_bytes_eq]
    exact to_bytes_from_bytes hbuf
  · intro buf hbuf
    show fto_bytes e h 8 (ffrom_bytes e h 8 buf) = buf
    rw [ffrom_bytes_eq, fto_bytes_eq]
    exact to_bytes_from_bytes hbuf

/-- Witness for C9 on the crate's own test byte sequence. -/
theorem C9_encode_decode_witness :
    (u8T .LittleEndian .BigEndian).to_bytes
      ((u8T .LittleEndian .BigEndian).from_bytes [0x11]) = [0x11] ∧
    (u16T .LittleEndian .BigEndian).to_bytes
      ((u16T .LittleEndian .BigEndian).from_bytes [0x11, 0x22]) =
      [0x11, 0x22] ∧
    (u32T .LittleEndian .BigEndian).to_bytes
      ((u32T .LittleEndian .BigEndian).from_bytes [0x11, 0x22, 0x33, 0x44]) =
      [0x11, 0x22, 0x33, 0x44] ∧
    (u64T .LittleEndian .BigEndian).to_bytes
      ((u64T .LittleEndian .BigEndian).from_bytes
        [0x11, 0x22, 0x33, 0x44, 0x55, 0x66, 0x77, 0x88]) =
      [0x11, 0x22, 0x33, 0x44, 0x55, 0x66, 0x77, 0x88] ∧
    (i8T .LittleEndian .BigEndian).to_bytes
      ((i8T .LittleEndian .BigEndian).from_bytes [0x91]) = [0x91] ∧
    (i16T .LittleEndian .BigEndian).to_bytes
      ((i16T .LittleEndian .BigEndian).from_bytes [0x91, 0x22]) =
      [0x91, 0x22] ∧
    (i32T .LittleEndian .BigEndian).to_bytes
      ((i32T .LittleEndian .BigEndian).from_bytes [0x91, 0x22, 0x33, 0x44]) =
      [0x91, 0x22, 0x33, 0x44] ∧
    (i64T .LittleEndian .BigEndian).to_bytes
      ((i64T .LittleEndian .BigEndian).from_bytes
        [0x11, 0x22, 0x33, 0x44, 0x55, 0x66, 0x77, 0x88]) =
      [0x11, 0x22, 0x33, 0x44, 0x55, 0x66, 0x77, 0x88] ∧
    (f32T .LittleEndian .BigEndian).to_bytes
      ((f32T .LittleEndian .BigEndian).from_bytes [0x11, 0x22, 0x33, 0x44]) =
      [0x11, 0x22, 0x33, 0x44] ∧
    (f64T .LittleEndian .BigEndian).to_bytes
      ((f64T .LittleEndian .BigEndian).from_bytes
        [0x11, 0x22, 0x33, 0x44, 0x55, 0x66, 0x77, 0x88]) =
      [0x11, 0x22, 0x33, 0x44, 0x55, 0x66, 0x77, 0x88] := by
  obtain ⟨h1, h2, h3, h4, h5, h6, h7, h8, h9, h10⟩ :=
    C9_encode_decode .LittleEndian .BigEndian
  exact ⟨h1 [0x11] (by decide), h2 [0x11, 0x22] (by decide),
    h3 [0x11, 0x22, 0x33, 0x44] (by decide),
    h4 [0x11, 0x22, 0x33, 0x44, 0x55, 0x66, 0x77, 0x88] (by decide),
    h5 [0x91] (by decide), h6 [0x91, 0x22] (by decide),
    h7 [0x91, 0x22, 0x33, 0x44] (by decide),
    h8 [0x11, 0x22, 0x33, 0x44, 0x55, 0x66, 0x77, 0x88] (by decide),
    h9 [0x11, 0x22, 0x33, 0x44] (by decide),
    h10 [0x11, 0x22, 0x33, 0x44, 0x55, 0x66, 0x77, 0x88] (by decide)⟩

/-- C10: `read_as` is not atomic on failure — on a short read the final
source state is the state after the single read call (the partially read
bytes are consumed, not restored), and the partial bytes are discarded;
with a byte-slice source the remaining slice after a failed read is
empty, so a retry does not see those bytes again. -/
theorem C10_consumes_on_failure (α : Type) (B : ByteTransform α) :
    (∀ (σ : Type) (src : ByteSource σ) (s s₁ : σ) (bytes : List Nat),
      src.read s B.buffer.length = (.ok bytes, s₁) →
      bytes.length < B.buffer.length →
      read_as src B s = (.error "could not read all bytes", s₁)) ∧
    (∀ s : List Nat, s.length < B.buffer.length →
      read_as sliceSource B s = (.error "could not read all bytes", []) ∧
      (s ≠ [] → (read_as sliceSource B s).2 ≠ s)) := by
  constructor
  · intro σ src s s₁ bytes hr hlen
    exact read_as_short hr hlen
  · intro s hs
    have hr : sliceSource.read s B.buffer.length = (.ok s, ([] : List Nat)) := by
      show (Except.ok (s.take B.buffer.length), s.drop B.buffer.length) =
        (Except.ok s, ([] : List Nat))
      rw [List.take_of_length_le (le_of_lt hs),
        List.drop_eq_nil_of_le (le_of_lt hs)]
    have hmain := read_as_short hr hs
    refine ⟨hmain, fun hne => ?_⟩
    rw [hmain]
    exact fun hcontra => hne hcontra.symm

/-- Witness for C10: reading a u32 from a 3-byte slice fails and leaves
the source empty. -/
theorem C10_consumes_on_failure_witness :
    read_as sliceSource (u32T .BigEndian .LittleEndian) [0x11, 0x22, 0x33] =
      (.error "could not read all bytes", []) ∧
    ([0x11, 0x22, 0x33] ≠ ([] : List Nat) →
      (read_as sliceSource (u32T .BigEndian .LittleEndian)
        [0x11, 0x22, 0x33]).2 ≠ [0x11, 0x22, 0x33]) := by
  exact (C10_consumes_on_failure Nat
    (u32T .BigEndian .LittleEndian)).2 [0x11, 0x22, 0x33] (by decide)

end Endianrw
